import Mathlib

/-!
Shallow embedding of the version-resolution core of the git2version crate
(src/lib.rs, src/git_helpers.rs, src/gitinfo_owned.rs, src/gitinfo.rs).

The external git backend (the git2 crate) is modelled by a finite `Repo`
state: a list of commit objects, a set of unreadable (corrupted) oids, an
optional head oid, the per-path working-tree statuses, and the raw tag
references.  The functions `all_tags`, `get_git_info` and `displayGitInfo`
are direct translations of the Rust functions of the same purpose.
-/

deriving instance DecidableEq for Except

namespace Git2Version

/-- Object id in the git object database. Real oids are 160-bit values used
only for equality and hashing, so they are modelled as natural numbers. -/
abbrev Oid := Nat

/-- From src/lib.rs: the length of the shortened git commit hash. -/
def COMMIT_ID_SHORT_HASH_LENGTH : Nat := 10

/-- Modulus of the Rust u32 type of the commits_since_tag counter. -/
def UINT32_MOD : Nat := 4294967296

/-- Lowercase hex digit, as used by the textual rendering of a git oid. -/
def hexDigit (n : Nat) : Char :=
  if n < 10 then Char.ofNat (48 + n) else Char.ofNat (87 + n)

/-- Fixed-width big-endian hex rendering of a natural number. -/
def hexChars : Nat → Nat → List Char
  | 0, _ => []
  | w + 1, n => hexChars w (n / 16) ++ [hexDigit (n % 16)]

/-- Model of git2 Oid::to_string: the full 40-hex-character rendering. -/
def oidToString (oid : Oid) : String :=
  String.mk (hexChars 40 oid)

/-- Model of Rust byte slicing s[..n] followed by to_string, on ASCII text
(a git hash rendering is pure ASCII, so bytes coincide with characters). -/
def strTake (s : String) (n : Nat) : String :=
  String.mk (s.data.take n)

/-- Per-path working-tree or index status, as reported by the git2 status
query.  Each path is modelled with a single status flag. -/
inductive Status where
  | current
  | ignored
  | indexNew
  | indexModified
  | indexDeleted
  | wtNew
  | wtModified
  | wtDeleted
deriving DecidableEq, Repr

/-- A commit object: its id and the ordered list of its parent oids. -/
structure CommitObj where
  id : Oid
  parents : List Oid
deriving DecidableEq, Repr

/-- A tag reference as enumerated by git2 tag_foreach: the raw bytes of the
full reference name and the oid of the object the reference points at.
For an annotated tag the target is the tag object, not a commit. -/
structure TagRef where
  name : List Nat
  target : Oid
deriving DecidableEq, Repr

/-- Model of git2 errors.  The Rust code only constructs errors via
from_str; the other constructors model errors raised by the backend. -/
inductive GitError where
  | notFound
  | backendRead
  | noHead
  | statusFailed
  | fromStr (msg : String)
  | panicked (msg : String)
deriving DecidableEq, Repr

/-- The repository state visible to the version-resolution core through the
git2 backend. `tagObjects` records which oids are annotated tag objects and
which commit they point at; the Rust code under verification never reads
it, which is exactly the point of the annotated-tag claims. -/
structure Repo where
  commits : List CommitObj
  corrupted : List Oid
  head : Option Oid
  pathStatuses : List Status
  statusError : Option GitError
  tagRefs : List TagRef
  tagObjects : List (Oid × Oid)
deriving DecidableEq, Repr

/-- Look up a commit object by oid. -/
def findCommit (repo : Repo) (oid : Oid) : Option CommitObj :=
  repo.commits.find? (fun c => c.id == oid)

/-- Model of git2 Commit::parent(0): returns the first parent commit, or an
error if there is no parent, the parent object cannot be read, or the
parent is missing from the object database. -/
def parent0 (repo : Repo) (c : CommitObj) : Except GitError CommitObj :=
  match c.parents with
  | [] => .error .notFound
  | p :: _ =>
    if p ∈ repo.corrupted then .error .backendRead
    else
      match findCommit repo p with
      | some pc => .ok pc
      | none => .error .notFound

/-- Model of repo.head()?.peel_to_commit()? from get_git_info. -/
def resolveHead (repo : Repo) : Except GitError CommitObj :=
  match repo.head with
  | none => .error .noHead
  | some oid =>
    if oid ∈ repo.corrupted then .error .backendRead
    else
      match findCommit repo oid with
      | some c => .ok c
      | none => .error .noHead

/-- Model of repo.statuses(...) with show(IndexAndWorkdir),
include_untracked(false), include_ignored(false), include_unmodified(false):
untracked, ignored and unchanged paths are excluded from the result. -/
def statusesCall (repo : Repo) : Except GitError (List Status) :=
  match repo.statusError with
  | some e => .error e
  | none =>
    .ok (repo.pathStatuses.filter fun s =>
      !(s == Status.wtNew) && !(s == Status.ignored) && !(s == Status.current))

/-- True for a continuation byte of a UTF-8 encoded sequence. -/
def contByte (b : Nat) : Bool :=
  128 ≤ b && b < 192

/-- Model of std::str::from_utf8: decodes a byte sequence as UTF-8,
rejecting malformed, overlong and surrogate encodings. -/
def utf8Decode : List Nat → Option (List Char)
  | [] => some []
  | b :: rest =>
    if b < 128 then
      (utf8Decode rest).map (fun cs => Char.ofNat b :: cs)
    else if b < 194 then none
    else if b < 224 then
      match rest with
      | b2 :: rest2 =>
        if contByte b2 then
          (utf8Decode rest2).map (fun cs => Char.ofNat ((b - 192) * 64 + (b2 - 128)) :: cs)
        else none
      | [] => none
    else if b < 240 then
      match rest with
      | b2 :: b3 :: rest2 =>
        if contByte b2 && contByte b3 then
          let cp := (b - 224) * 4096 + (b2 - 128) * 64 + (b3 - 128)
          if cp < 2048 || (55296 ≤ cp && cp < 57344) then none
          else (utf8Decode rest2).map (fun cs => Char.ofNat cp :: cs)
        else none
      | _ => none
    else if b < 245 then
      match rest with
      | b2 :: b3 :: b4 :: rest2 =>
        if contByte b2 && contByte b3 && contByte b4 then
          let cp := (b - 240) * 262144 + (b2 - 128) * 4096 + (b3 - 128) * 64 + (b4 - 128)
          if cp < 65536 || 1114112 ≤ cp then none
          else (utf8Decode rest2).map (fun cs => Char.ofNat cp :: cs)
        else none
      | _ => none
    else none

/-- The expected tag reference namespace, as a character list. -/
def refsTagsNamespace : List Char :=
  String.data "refs/tags/"

/-- Model of str::strip_prefix on character lists: removes the leading
pattern if present, otherwise fails. -/
def dropLeading : List Char → List Char → Option (List Char)
  | [], s => some s
  | _ :: _, [] => none
  | p :: ps, c :: cs => if p = c then dropLeading ps cs else none

/-- Processing of a single tag reference name inside the all_tags callback
(src/git_helpers.rs): decode the raw bytes as UTF-8 and remove the
refs/tags/ namespace, failing with a from_str error otherwise. -/
def tagShortName (name : List Nat) : Except GitError String :=
  match utf8Decode name with
  | none => .error (.fromStr "Tag name is not valid UTF-8")
  | some chars =>
    match dropLeading refsTagsNamespace chars with
    | none =>
      .error (.fromStr ("Tag name " ++ String.mk chars ++ " does not start with refs/tags/"))
    | some rest => .ok (String.mk rest)

/-- Model of the HashMap entry logic of all_tags: push the name onto an
existing entry for this oid, or insert a fresh single-element entry. -/
def insertTag : List (Oid × List String) → Oid → String → List (Oid × List String)
  | [], oid, name => [(oid, [name])]
  | (o, ts) :: rest, oid, name =>
    if o = oid then (o, ts ++ [name]) :: rest
    else (o, ts) :: insertTag rest oid name

/-- Model of HashMap::get on the tag index. -/
def lookupTags (m : List (Oid × List String)) (oid : Oid) : Option (List String) :=
  (m.find? (fun p => p.1 == oid)).map (fun p => p.2)

/-- The tag_foreach loop of all_tags: processes tag references in order,
stopping at the first malformed name and returning its error. -/
def allTagsAux : List TagRef → List (Oid × List String) → Except GitError (List (Oid × List String))
  | [], acc => .ok acc
  | r :: rest, acc =>
    match tagShortName r.name with
    | .error e => .error e
    | .ok name => allTagsAux rest (insertTag acc r.target name)

/-- Translation of all_tags from src/git_helpers.rs: group all tag
references of the repository by the oid they point at.  The target oid is
stored as enumerated, without peeling annotated tag objects. -/
def all_tags (repo : Repo) : Except GitError (List (Oid × List String)) :=
  allTagsAux repo.tagRefs []

/-- Owned tag information, from src/gitinfo_owned.rs.  The Rust counter is
a u32; it is modelled as a natural number kept below UINT32_MOD. -/
structure TagInfoOwned where
  tag : String
  commits_since_tag : Nat
deriving DecidableEq, Repr

/-- Owned git version information, from src/gitinfo_owned.rs. -/
structure GitInfoOwned where
  tag_info : Option TagInfoOwned
  commit_id : String
  modified : Bool
deriving DecidableEq, Repr

/-- Borrowed tag information, from src/gitinfo.rs. -/
structure TagInfo where
  tag : String
  commits_since_tag : Nat
deriving DecidableEq, Repr

/-- Borrowed git version information, from src/gitinfo.rs. -/
structure GitInfo where
  tag_info : Option TagInfo
  commit_id : String
  modified : Bool
deriving DecidableEq, Repr

/-- The ancestry-walk loop of get_git_info.  The Rust loop is unbounded; it
is modelled with explicit fuel, where a none result means the loop never
exits (possible only for a cyclic parent graph, which real git cannot
produce).  The empty-tag-list branch models the expect call, which aborts
the Rust process; it is proved unreachable for indexes built by all_tags.
The counter increment is taken modulo UINT32_MOD, matching u32
arithmetic. -/
def walkLoop (repo : Repo) (tags : List (Oid × List String)) (cid : String) (modified : Bool) :
    Nat → CommitObj → Nat → Option (Except GitError GitInfoOwned)
  | 0, _, _ => none
  | fuel + 1, c, count =>
    match lookupTags tags c.id with
    | some tl =>
      match tl with
      | t :: _ => some (.ok ⟨some ⟨t, count⟩, cid, modified⟩)
      | [] => some (.error (.panicked "tag list can not be empty"))
    | none =>
      match parent0 repo c with
      | .ok parent => walkLoop repo tags cid modified fuel parent ((count + 1) % UINT32_MOD)
      | .error _ => some (.ok ⟨none, cid, modified⟩)

/-- Translation of get_git_info from src/gitinfo_owned.rs: resolve the
head, shorten its hash, compute the modified flag from the status query,
build the tag index and walk first-parent ancestry.  In the Rust source a
parent-lookup error is interpreted as having reached the root commit and
yields an Ok result with no tag information. -/
def get_git_info (repo : Repo) : Option (Except GitError GitInfoOwned) :=
  match resolveHead repo with
  | .error e => some (.error e)
  | .ok head_commit =>
    match statusesCall repo with
    | .error e => some (.error e)
    | .ok statuses =>
      match all_tags repo with
      | .error e => some (.error e)
      | .ok tags =>
        walkLoop repo tags
          (strTake (oidToString head_commit.id) COMMIT_ID_SHORT_HASH_LENGTH)
          (statuses.any fun s => !(s == Status.current) && !(s == Status.ignored))
          (repo.commits.length + 1) head_commit 0

/-- Translation of the Display implementation for GitInfo from
src/gitinfo.rs: the sequential write calls concatenate the tag part, the
commit id part, and the conditional modified suffix. -/
def displayGitInfo (gi : GitInfo) : String :=
  (match gi.tag_info with
   | some t => t.tag ++ "+" ++ toString t.commits_since_tag
   | none => "unknown")
  ++ ".g" ++ gi.commit_id
  ++ (if gi.modified then ".modified" else "")

/-- A first-parent chain: starting at a commit, each next list element is
the resolved first parent of the previous one. -/
def fpChain (repo : Repo) : CommitObj → List CommitObj → Prop
  | _, [] => True
  | c, d :: rest => parent0 repo c = .ok d ∧ fpChain repo d rest

instance fpChainDecidable (repo : Repo) :
    (c : CommitObj) → (l : List CommitObj) → Decidable (fpChain repo c l)
  | _, [] => isTrue trivial
  | c, d :: rest =>
    match fpChainDecidable repo d rest with
    | isTrue h =>
      if hp : parent0 repo c = .ok d then isTrue ⟨hp, h⟩
      else isFalse fun hc => hp hc.1
    | isFalse h => isFalse fun hc => h hc.2

/-- The last commit of a chain given as head plus tail. -/
def lastOf : CommitObj → List CommitObj → CommitObj
  | c, [] => c
  | _, d :: rest => lastOf d rest

/-- All commits of a chain except the last one. -/
def frontOf : CommitObj → List CommitObj → List CommitObj
  | _, [] => []
  | c, d :: rest => c :: frontOf d rest

/-- Statuses that the specification counts as a change to a tracked path:
staged addition, modification or deletion, or unstaged modification or
deletion. -/
def isTrackedChange (s : Status) : Bool :=
  match s with
  | .indexNew | .indexModified | .indexDeleted | .wtModified | .wtDeleted => true
  | .current | .ignored | .wtNew => false

/-- A rank function certifying that first-parent edges are acyclic: the
rank strictly decreases along every resolvable first-parent edge. -/
def rankDecreasingB (repo : Repo) (r : Nat → Nat) : Bool :=
  repo.commits.all fun c =>
    match parent0 repo c with
    | .ok p => decide (r p.id < r c.id)
    | .error _ => true

/-- The rank of every commit is bounded by the number of commits, as for
the longest-path rank of any finite acyclic graph. -/
def rankBoundedB (repo : Repo) (r : Nat → Nat) : Bool :=
  repo.commits.all fun c => decide (r c.id < repo.commits.length + 1)

/-- The byte rendering of the reference name refs/tags/v1.0.0. -/
def refV100 : List Nat :=
  [114, 101, 102, 115, 47, 116, 97, 103, 115, 47, 118, 49, 46, 48, 46, 48]

/-- The byte rendering of the reference name refs/tags/side. -/
def refSide : List Nat :=
  [114, 101, 102, 115, 47, 116, 97, 103, 115, 47, 115, 105, 100, 101]

/-- A repository with a single untagged commit and a clean working tree. -/
def oneCommitRepo : Repo :=
  { commits := [⟨1, []⟩], corrupted := [], head := some 1, pathStatuses := [],
    statusError := none, tagRefs := [], tagObjects := [] }

/-- A repository whose single commit carries the lightweight tag v1.0.0. -/
def tagOnHeadRepo : Repo :=
  { commits := [⟨1, []⟩], corrupted := [], head := some 1, pathStatuses := [],
    statusError := none, tagRefs := [⟨refV100, 1⟩], tagObjects := [] }

/-- A repository with head commit 2 whose parent commit 1 carries the tag
v1.0.0: one first-parent step from head to the tagged commit. -/
def linearTagRepo : Repo :=
  { commits := [⟨2, [1]⟩, ⟨1, []⟩], corrupted := [], head := some 2, pathStatuses := [],
    statusError := none, tagRefs := [⟨refV100, 1⟩], tagObjects := [] }

/-- A repository where head 3 is a merge commit with first parent 2 and
second parent 10; the tag side sits on commit 10, which is reachable from
head only through the second merge parent. -/
def mergeSideTagRepo : Repo :=
  { commits := [⟨3, [2, 10]⟩, ⟨2, [1]⟩, ⟨1, []⟩, ⟨10, [1]⟩], corrupted := [],
    head := some 3, pathStatuses := [], statusError := none,
    tagRefs := [⟨refSide, 10⟩], tagObjects := [] }

/-- A repository whose head commit 2 has first parent 1, but the object 1
cannot be read from the object database. -/
def corruptedParentRepo : Repo :=
  { commits := [⟨2, [1]⟩, ⟨1, []⟩], corrupted := [1], head := some 2, pathStatuses := [],
    statusError := none, tagRefs := [], tagObjects := [] }

/-- A repository whose head cannot be resolved to a commit. -/
def noHeadRepo : Repo :=
  { commits := [], corrupted := [], head := none, pathStatuses := [],
    statusError := none, tagRefs := [], tagObjects := [] }

/-- A repository whose only tag is an annotated tag: the reference
refs/tags/v1.0.0 points at tag object 2, which in turn points at the head
commit 1. -/
def annotatedTagRepo : Repo :=
  { commits := [⟨1, []⟩], corrupted := [], head := some 1, pathStatuses := [],
    statusError := none, tagRefs := [⟨refV100, 2⟩], tagObjects := [(2, 1)] }

/-- A repository with one commit, an unstaged modification to a tracked
file, and an untracked file. -/
def modifiedRepo : Repo :=
  { commits := [⟨1, []⟩], corrupted := [], head := some 1,
    pathStatuses := [Status.wtNew, Status.wtModified], statusError := none,
    tagRefs := [], tagObjects := [] }

/-- A repository with an untracked file only. -/
def untrackedOnlyRepo : Repo :=
  { commits := [⟨1, []⟩], corrupted := [], head := some 1,
    pathStatuses := [Status.wtNew], statusError := none,
    tagRefs := [], tagObjects := [] }

/-- A repository whose tag references contain, after one well-formed
entry, an entry whose name byte 255 is not valid UTF-8, followed by a
further well-formed entry. -/
def malformedTagRepo : Repo :=
  { commits := [⟨1, []⟩], corrupted := [], head := some 1, pathStatuses := [],
    statusError := none,
    tagRefs := [⟨refV100, 1⟩, ⟨[255], 2⟩, ⟨refSide, 3⟩], tagObjects := [] }

/-- Fixed-width hex rendering always has exactly the requested width. -/
lemma hexChars_length : ∀ (w n : Nat), (hexChars w n).length = w
  | 0, _ => rfl
  | w + 1, n => by
    simp [hexChars, hexChars_length w (n / 16)]

/-- The full oid rendering always has 40 characters. -/
lemma oidToString_length (oid : Oid) : (oidToString oid).length = 40 := by
  simpa [oidToString, String.length] using hexChars_length 40 oid

/-- The character data of a string truncation is the truncated data. -/
lemma strTake_data (s : String) (n : Nat) : (strTake s n).data = s.data.take n := rfl

/-- A commit found by findCommit is an element of the commit list. -/
lemma findCommit_mem {repo : Repo} {oid : Oid} {c : CommitObj}
    (h : findCommit repo oid = some c) : c ∈ repo.commits :=
  List.mem_of_find?_eq_some h

/-- A successfully resolved head commit is an element of the commit list. -/
lemma resolveHead_mem {repo : Repo} {c : CommitObj}
    (h : resolveHead repo = .ok c) : c ∈ repo.commits := by
  unfold resolveHead at h
  split at h
  · exact absurd h (by simp)
  · split at h
    · exact absurd h (by simp)
    · split at h
      · rename_i hf
        injection h with h2
        exact h2 ▸ findCommit_mem hf
      · exact absurd h (by simp)

/-- A successfully resolved first parent is an element of the commit list. -/
lemma parent0_mem {repo : Repo} {c p : CommitObj}
    (h : parent0 repo c = .ok p) : p ∈ repo.commits := by
  unfold parent0 at h
  split at h
  · exact absurd h (by simp)
  · split at h
    · exact absurd h (by simp)
    · split at h
      · rename_i hf
        injection h with h2
        exact h2 ▸ findCommit_mem hf
      · exact absurd h (by simp)

/-- Every commit of a first-parent chain that starts inside the commit
list stays inside the commit list. -/
lemma fpChain_mem {repo : Repo} : ∀ (rest : List CommitObj) (c : CommitObj),
    c ∈ repo.commits → fpChain repo c rest → ∀ x ∈ c :: rest, x ∈ repo.commits
  | [], c, hc, _, x, hx => by
    simp only [List.mem_singleton] at hx
    exact hx ▸ hc
  | d :: rs, c, hc, hchain, x, hx => by
    rcases List.mem_cons.mp hx with h | h
    · exact h ▸ hc
    · exact fpChain_mem rs d (parent0_mem hchain.1) hchain.2 x h

/-- A duplicate-free chain inside the commit list is no longer than the
commit list. -/
lemma chain_length_le {repo : Repo} {c : CommitObj} {rest : List CommitObj}
    (hmem : ∀ x ∈ c :: rest, x ∈ repo.commits)
    (hnodup : ((c :: rest).map CommitObj.id).Nodup) :
    (c :: rest).length ≤ repo.commits.length := by
  have hsub : (c :: rest).map CommitObj.id ⊆ repo.commits.map CommitObj.id :=
    List.map_subset _ (fun x hx => hmem x hx)
  have hle := (List.subperm_of_subset hnodup hsub).length_le
  simpa using hle

/-- A successful walk result carries the short commit id and modified flag
that the walk was started with. -/
lemma walkLoop_ok_fields {repo : Repo} {tags : List (Oid × List String)}
    {cid : String} {m : Bool} :
    ∀ {fuel : Nat} {c : CommitObj} {count : Nat} {gi : GitInfoOwned},
      walkLoop repo tags cid m fuel c count = some (.ok gi) →
      gi.commit_id = cid ∧ gi.modified = m := by
  intro fuel
  induction fuel with
  | zero =>
    intro c count gi h
    exact absurd h (by simp [walkLoop])
  | succ f ih =>
    intro c count gi h
    unfold walkLoop at h
    split at h
    · split at h
      · injection h with h2
        injection h2 with h3
        subst h3
        exact ⟨rfl, rfl⟩
      · exact absurd h (by simp)
    · split at h
      · exact ih h
      · injection h with h2
        injection h2 with h3
        subst h3
        exact ⟨rfl, rfl⟩

/-- If a chain from the start commit has untagged front commits and a
tagged last commit, the walk returns that tag with the count advanced by
the chain length. -/
lemma walkLoop_found {repo : Repo} {tags : List (Oid × List String)}
    {cid : String} {m : Bool} {t : String} {ts : List String} :
    ∀ (rest : List CommitObj) (c : CommitObj) (count fuel : Nat),
      fpChain repo c rest →
      (∀ x ∈ frontOf c rest, lookupTags tags x.id = none) →
      lookupTags tags (lastOf c rest).id = some (t :: ts) →
      rest.length + 1 ≤ fuel →
      count < UINT32_MOD →
      walkLoop repo tags cid m fuel c count =
        some (.ok ⟨some ⟨t, (count + rest.length) % UINT32_MOD⟩, cid, m⟩)
  | [], c, count, fuel, hchain, hfront, hlast, hfuel, hcount => by
    obtain ⟨f, rfl⟩ : ∃ f, fuel = f + 1 := ⟨fuel - 1, by omega⟩
    unfold walkLoop
    rw [show lastOf c [] = c from rfl] at hlast
    simp [hlast, Nat.mod_eq_of_lt hcount]
  | d :: rs, c, count, fuel, hchain, hfront, hlast, hfuel, hcount => by
    obtain ⟨f, rfl⟩ : ∃ f, fuel = f + 1 := ⟨fuel - 1, by omega⟩
    unfold walkLoop
    have hc : lookupTags tags c.id = none := hfront c (by simp [frontOf])
    have hrec := @walkLoop_found repo tags cid m t ts rs d ((count + 1) % UINT32_MOD) f hchain.2
      (fun x hx => hfront x (by simp [frontOf, hx]))
      hlast (by simp at hfuel; omega) (Nat.mod_lt _ (by norm_num [UINT32_MOD]))
    have harith : (((count + 1) % UINT32_MOD) + rs.length) % UINT32_MOD
        = (count + (d :: rs).length) % UINT32_MOD := by
      rw [Nat.mod_add_mod]
      congr 1
      simp
      omega
    simp only [hc, hchain.1, hrec, harith]

/-- If every commit of the chain is untagged and the last commit has no
resolvable first parent, the walk returns no tag information. -/
lemma walkLoop_none {repo : Repo} {tags : List (Oid × List String)}
    {cid : String} {m : Bool} :
    ∀ (rest : List CommitObj) (c : CommitObj) (count fuel : Nat) (e : GitError),
      fpChain repo c rest →
      (∀ x ∈ c :: rest, lookupTags tags x.id = none) →
      parent0 repo (lastOf c rest) = .error e →
      rest.length + 1 ≤ fuel →
      walkLoop repo tags cid m fuel c count = some (.ok ⟨none, cid, m⟩)
  | [], c, count, fuel, e, hchain, hnone, hroot, hfuel => by
    obtain ⟨f, rfl⟩ : ∃ f, fuel = f + 1 := ⟨fuel - 1, by omega⟩
    unfold walkLoop
    have hc : lookupTags tags c.id = none := hnone c (by simp)
    rw [show lastOf c [] = c from rfl] at hroot
    simp [hc, hroot]
  | d :: rs, c, count, fuel, e, hchain, hnone, hroot, hfuel => by
    obtain ⟨f, rfl⟩ : ∃ f, fuel = f + 1 := ⟨fuel - 1, by omega⟩
    unfold walkLoop
    have hc : lookupTags tags c.id = none := hnone c (by simp)
    have hrec := @walkLoop_none repo tags cid m rs d ((count + 1) % UINT32_MOD) f e hchain.2
      (fun x hx => hnone x (by simp [hx]))
      hroot (by simp at hfuel; omega)
    simp only [hc, hchain.1, hrec]

/-- With a strictly decreasing rank along first-parent edges, the walk
always returns a result when started with more fuel than the rank of the
start commit. -/
lemma walkLoop_isSome {repo : Repo} {tags : List (Oid × List String)}
    {cid : String} {m : Bool} {r : Nat → Nat}
    (hdec : rankDecreasingB repo r = true) :
    ∀ (fuel : Nat) (c : CommitObj) (count : Nat),
      c ∈ repo.commits → r c.id < fuel →
      (walkLoop repo tags cid m fuel c count).isSome = true := by
  intro fuel
  induction fuel with
  | zero =>
    intro c count _ hr
    exact absurd hr (by omega)
  | succ f ih =>
    intro c count hc hr
    unfold walkLoop
    split
    · split
      · rfl
      · rfl
    · split
      · rename_i p hp
        have hall := List.all_eq_true.mp hdec c hc
        rw [hp] at hall
        have hlt : r p.id < r c.id := of_decide_eq_true hall
        exact ih p ((count + 1) % UINT32_MOD) (parent0_mem hp) (by omega)
      · rfl

/-- A successful get_git_info run decomposes into a resolved head, a
successful status query, a successful tag index, and the ancestry walk. -/
lemma get_git_info_ok {repo : Repo} {gi : GitInfoOwned}
    (h : get_git_info repo = some (.ok gi)) :
    ∃ c sts tags, resolveHead repo = .ok c ∧ statusesCall repo = .ok sts ∧
      all_tags repo = .ok tags ∧
      walkLoop repo tags (strTake (oidToString c.id) COMMIT_ID_SHORT_HASH_LENGTH)
        (sts.any fun s => !(s == Status.current) && !(s == Status.ignored))
        (repo.commits.length + 1) c 0 = some (.ok gi) := by
  unfold get_git_info at h
  split at h
  · exact absurd h (by simp)
  · rename_i c hc
    split at h
    · exact absurd h (by simp)
    · rename_i sts hs
      split at h
      · exact absurd h (by simp)
      · rename_i tags ht
        exact ⟨c, sts, tags, hc, hs, ht, h⟩

/-- Conversely, successful sub-steps make get_git_info return the walk
result. -/
lemma get_git_info_eq_walk {repo : Repo} {c : CommitObj} {sts : List Status}
    {tags : List (Oid × List String)}
    (hc : resolveHead repo = .ok c) (hs : statusesCall repo = .ok sts)
    (ht : all_tags repo = .ok tags) :
    get_git_info repo =
      walkLoop repo tags (strTake (oidToString c.id) COMMIT_ID_SHORT_HASH_LENGTH)
        (sts.any fun s => !(s == Status.current) && !(s == Status.ignored))
        (repo.commits.length + 1) c 0 := by
  unfold get_git_info
  rw [hc, hs, ht]

/-- C1: for a repository whose head resolves and whose first-parent chain
from head reaches a tagged commit after exactly N untagged intermediate
steps, get_git_info returns Ok with tag information whose tag is a tag of
that commit and whose commits_since_tag is exactly N (N = rest.length; the
head-is-tagged case is rest = [] with N = 0).  The chain is given as head
commit c0 plus the list rest of successive first parents; the bound on
UINT32_MOD reflects the u32 counter of the source. -/
theorem c1_linear_commits_since_tag (repo : Repo) (tags : List (Oid × List String))
    (c0 : CommitObj) (rest : List CommitObj) (t : String) (ts : List String)
    (sts : List Status)
    (hhead : resolveHead repo = .ok c0)
    (hstat : statusesCall repo = .ok sts)
    (htags : all_tags repo = .ok tags)
    (hchain : fpChain repo c0 rest)
    (hnear : ∀ x ∈ frontOf c0 rest, lookupTags tags x.id = none)
    (htag : lookupTags tags (lastOf c0 rest).id = some (t :: ts))
    (hnodup : ((c0 :: rest).map CommitObj.id).Nodup)
    (hlen : rest.length + 1 ≤ UINT32_MOD) :
    ∃ gi, get_git_info repo = some (.ok gi) ∧ gi.tag_info = some ⟨t, rest.length⟩ := by
  have hmem := fpChain_mem rest c0 (resolveHead_mem hhead) hchain
  have hle := chain_length_le hmem hnodup
  have hfuel : rest.length + 1 ≤ repo.commits.length + 1 := by
    simp only [List.length_cons] at hle
    omega
  have hw := @walkLoop_found repo tags
    (strTake (oidToString c0.id) COMMIT_ID_SHORT_HASH_LENGTH)
    (sts.any fun s => !(s == Status.current) && !(s == Status.ignored))
    t ts rest c0 0 (repo.commits.length + 1)
    hchain hnear htag hfuel (by norm_num [UINT32_MOD])
  rw [Nat.zero_add, Nat.mod_eq_of_lt (by omega)] at hw
  exact ⟨_, by rw [get_git_info_eq_walk hhead hstat htags, hw], rfl⟩

/-- C1 witness: in the concrete repository with tagged parent commit 1 and
head commit 2, the resolver reports tag v1.0.0 one commit back. -/
theorem c1_linear_commits_since_tag_witness :
    ∃ gi, get_git_info linearTagRepo = some (.ok gi) ∧
      gi.tag_info = some ⟨"v1.0.0", 1⟩ := by
  have h := c1_linear_commits_since_tag linearTagRepo [(1, ["v1.0.0"])]
    ⟨2, [1]⟩ [⟨1, []⟩] "v1.0.0" [] []
    (by decide) (by decide) (by decide) (by decide)
    (by decide) (by decide) (by decide) (by decide)
  simpa using h

/-- C5: if the whole first-parent chain from head down to a commit with no
resolvable first parent carries no tag, get_git_info returns Ok with no
tag information, regardless of any tags elsewhere in the repository (such
as tags on commits reachable only through a second merge parent). -/
theorem c5_first_parent_only (repo : Repo) (tags : List (Oid × List String))
    (c0 : CommitObj) (rest : List CommitObj) (sts : List Status) (e : GitError)
    (hhead : resolveHead repo = .ok c0)
    (hstat : statusesCall repo = .ok sts)
    (htags : all_tags repo = .ok tags)
    (hchain : fpChain repo c0 rest)
    (hnone : ∀ x ∈ c0 :: rest, lookupTags tags x.id = none)
    (hroot : parent0 repo (lastOf c0 rest) = .error e)
    (hnodup : ((c0 :: rest).map CommitObj.id).Nodup) :
    ∃ gi, get_git_info repo = some (.ok gi) ∧ gi.tag_info = none := by
  have hmem := fpChain_mem rest c0 (resolveHead_mem hhead) hchain
  have hle := chain_length_le hmem hnodup
  have hfuel : rest.length + 1 ≤ repo.commits.length + 1 := by
    simp only [List.length_cons] at hle
    omega
  have hw := @walkLoop_none repo tags
    (strTake (oidToString c0.id) COMMIT_ID_SHORT_HASH_LENGTH)
    (sts.any fun s => !(s == Status.current) && !(s == Status.ignored))
    rest c0 0 (repo.commits.length + 1) e
    hchain hnone hroot hfuel
  exact ⟨_, by rw [get_git_info_eq_walk hhead hstat htags, hw], rfl⟩

/-- C5 witness: head 3 is a merge whose second parent 10 carries the tag
side; the first-parent chain 3, 2, 1 is untagged, so no tag is reported
even though the tagged commit is an ancestor of head. -/
theorem c5_first_parent_only_witness :
    all_tags mergeSideTagRepo = .ok [(10, ["side"])] ∧
    (∃ gi, get_git_info mergeSideTagRepo = some (.ok gi) ∧ gi.tag_info = none) := by
  refine ⟨by decide, ?_⟩
  exact c5_first_parent_only mergeSideTagRepo [(10, ["side"])]
    ⟨3, [2, 10]⟩ [⟨2, [1]⟩, ⟨1, []⟩] [] .notFound
    (by decide) (by decide) (by decide) (by decide)
    (by decide) (by decide) (by decide)

/-- C3 (amended): every backend error raised before the ancestry walk
(head resolution, status query, tag enumeration) aborts get_git_info and
is returned unchanged; an error from the first-parent lookup during the
walk, however, does not abort: the walk treats it as having reached the
root and returns Ok with no tag information. -/
theorem c3_backend_error_propagation :
    (∀ (repo : Repo) (e : GitError),
      resolveHead repo = .error e
        ∨ ((∃ c, resolveHead repo = .ok c) ∧ statusesCall repo = .error e)
        ∨ ((∃ c, resolveHead repo = .ok c) ∧ (∃ sts, statusesCall repo = .ok sts) ∧
            all_tags repo = .error e) →
      get_git_info repo = some (.error e)) ∧
    (∀ (repo : Repo) (c : CommitObj) (sts : List Status)
        (tags : List (Oid × List String)) (e : GitError),
      resolveHead repo = .ok c → statusesCall repo = .ok sts →
      all_tags repo = .ok tags → lookupTags tags c.id = none →
      parent0 repo c = .error e →
      ∃ gi, get_git_info repo = some (.ok gi) ∧ gi.tag_info = none) := by
  constructor
  · intro repo e h
    rcases h with h1 | ⟨⟨c, hc⟩, hs⟩ | ⟨⟨c, hc⟩, ⟨sts, hs⟩, ht⟩
    · simp [get_git_info, h1]
    · simp [get_git_info, hc, hs]
    · simp [get_git_info, hc, hs, ht]
  · intro repo c sts tags e hc hs ht hlk hp
    have hw := @walkLoop_none repo tags
      (strTake (oidToString c.id) COMMIT_ID_SHORT_HASH_LENGTH)
      (sts.any fun s => !(s == Status.current) && !(s == Status.ignored))
      [] c 0 (repo.commits.length + 1) e trivial
      (by intro x hx; simp only [List.mem_singleton] at hx; exact hx ▸ hlk)
      hp (by simp)
    exact ⟨_, by rw [get_git_info_eq_walk hc hs ht, hw], rfl⟩

/-- C3 counterexample: in corruptedParentRepo the first-parent lookup at
the head commit fails with a backend read error, yet get_git_info returns
Ok with no tag information instead of surfacing the error, refuting the
claim that mid-walk backend errors are never converted into Ok results. -/
theorem c3_mid_walk_error_counterexample :
    parent0 corruptedParentRepo ⟨2, [1]⟩ = .error .backendRead ∧
    resolveHead corruptedParentRepo = .ok ⟨2, [1]⟩ ∧
    get_git_info corruptedParentRepo = some (.ok ⟨none, "0000000000", false⟩) :=
  ⟨by decide, by decide, by decide⟩

/-- C3 witness: a head-resolution error propagates, and a mid-walk parent
error yields an Ok result without tag information. -/
theorem c3_backend_error_propagation_witness :
    get_git_info noHeadRepo = some (.error .noHead) ∧
    (∃ gi, get_git_info corruptedParentRepo = some (.ok gi) ∧ gi.tag_info = none) := by
  constructor
  · exact c3_backend_error_propagation.1 noHeadRepo .noHead (Or.inl (by decide))
  · exact c3_backend_error_propagation.2 corruptedParentRepo ⟨2, [1]⟩ [] [] .backendRead
      (by decide) (by decide) (by decide) (by decide) (by decide)

/-- C2: evaluation at the failing input.  annotatedTagRepo contains an
annotated tag: the reference points at tag object 2 whose target is the
head commit 1.  The tag index built by all_tags stores the unpeeled tag
object id 2, the walk compares commit ids only, and get_git_info reports
no tag at all — no peeling happens at index-build time or during the
walk, contradicting the claim (and the source documentation of
all_tags, which asserts that get_git_info handles annotated tags). -/
theorem c2_annotated_tag_ignored :
    annotatedTagRepo.tagObjects = [(2, 1)] ∧
    annotatedTagRepo.head = some 1 ∧
    all_tags annotatedTagRepo = .ok [(2, ["v1.0.0"])] ∧
    get_git_info annotatedTagRepo = some (.ok ⟨none, "0000000000", false⟩) :=
  ⟨rfl, rfl, by decide, by decide⟩

/-- C4: for every successful result, modified is true iff some path in the
repository status has a tracked-change status (staged addition,
modification or deletion, or unstaged modification or deletion); in
particular untracked paths alone never make modified true. -/
theorem c4_modified_iff_tracked_change (repo : Repo) (gi : GitInfoOwned)
    (h : get_git_info repo = some (.ok gi)) :
    gi.modified = true ↔ ∃ s ∈ repo.pathStatuses, isTrackedChange s = true := by
  obtain ⟨c, sts, tags, hc, hs, ht, hw⟩ := get_git_info_ok h
  have hm := (walkLoop_ok_fields hw).2
  rw [hm]
  have hsts : sts = repo.pathStatuses.filter
      (fun s => !(s == Status.wtNew) && !(s == Status.ignored) && !(s == Status.current)) := by
    unfold statusesCall at hs
    split at hs
    · exact absurd hs (by simp)
    · injection hs with h2
      exact h2.symm
  subst hsts
  simp only [List.any_eq_true, List.mem_filter]
  constructor
  · rintro ⟨s, ⟨hmem, hflt⟩, hpred⟩
    refine ⟨s, hmem, ?_⟩
    cases s <;> simp_all [isTrackedChange]
  · rintro ⟨s, hmem, htc⟩
    refine ⟨s, ⟨hmem, ?_⟩, ?_⟩ <;> cases s <;> simp_all [isTrackedChange]

/-- C4 witness: an unstaged edit to a tracked file sets modified, and an
untracked file alone does not. -/
theorem c4_modified_iff_tracked_change_witness :
    get_git_info modifiedRepo = some (.ok ⟨none, "0000000000", true⟩) ∧
    get_git_info untrackedOnlyRepo = some (.ok ⟨none, "0000000000", false⟩) ∧
    (GitInfoOwned.modified ⟨none, "0000000000", true⟩ = true ↔
      ∃ s ∈ modifiedRepo.pathStatuses, isTrackedChange s = true) :=
  ⟨by decide, by decide,
    c4_modified_iff_tracked_change modifiedRepo ⟨none, "0000000000", true⟩ (by decide)⟩

/-- C6: every successful result has a commit id of exactly
COMMIT_ID_SHORT_HASH_LENGTH characters, and that commit id is a prefix of
the full textual rendering of the head commit identity. -/
theorem c6_commit_id_short_hash (repo : Repo) (gi : GitInfoOwned)
    (h : get_git_info repo = some (.ok gi)) :
    ∃ c, resolveHead repo = .ok c ∧
      gi.commit_id.length = COMMIT_ID_SHORT_HASH_LENGTH ∧
      gi.commit_id.data <+: (oidToString c.id).data := by
  obtain ⟨c, sts, tags, hc, hs, ht, hw⟩ := get_git_info_ok h
  have hcid := (walkLoop_ok_fields hw).1
  refine ⟨c, hc, ?_, ?_⟩
  · rw [hcid]
    have h40 : ((oidToString c.id).data).length = 40 := oidToString_length c.id
    show ((oidToString c.id).data.take COMMIT_ID_SHORT_HASH_LENGTH).length
      = COMMIT_ID_SHORT_HASH_LENGTH
    rw [List.length_take, h40]
    decide
  · rw [hcid, strTake_data]
    exact List.take_prefix COMMIT_ID_SHORT_HASH_LENGTH (oidToString c.id).data

/-- C6 witness: the single-commit repository yields commit id 0000000000,
of length 10 and a prefix of the 40-character full rendering. -/
theorem c6_commit_id_short_hash_witness :
    ∃ c, resolveHead oneCommitRepo = .ok c ∧
      (GitInfoOwned.commit_id ⟨none, "0000000000", false⟩).length = COMMIT_ID_SHORT_HASH_LENGTH ∧
      (GitInfoOwned.commit_id ⟨none, "0000000000", false⟩).data <+: (oidToString c.id).data :=
  c6_commit_id_short_hash oneCommitRepo ⟨none, "0000000000", false⟩ (by decide)

/-- C7: the Display rendering of a GitInfo is the tag name, a plus sign
and the decimal commit count followed by .g and the commit id when tag
information is present, or unknown followed by .g and the commit id
otherwise, with the literal suffix .modified appended exactly when
modified is true; the two concrete records of the claim evaluate to
v1.2.3+5.gabcdef1234.modified and unknown.gabcdef1234. -/
theorem c7_display_format :
    (∀ (t : TagInfo) (cid : String) (m : Bool),
      displayGitInfo ⟨some t, cid, m⟩ =
        t.tag ++ "+" ++ toString t.commits_since_tag ++ ".g" ++ cid ++
          (if m then ".modified" else "") ∧
      displayGitInfo ⟨none, cid, m⟩ =
        "unknown" ++ ".g" ++ cid ++ (if m then ".modified" else "")) ∧
    displayGitInfo ⟨some ⟨"v1.2.3", 5⟩, "abcdef1234", true⟩ = "v1.2.3+5.gabcdef1234.modified" ∧
    displayGitInfo ⟨none, "abcdef1234", false⟩ = "unknown.gabcdef1234" :=
  ⟨fun t cid m => ⟨rfl, rfl⟩, by decide, by decide⟩

/-- Inserting a tag name preserves non-emptiness of all value lists. -/
lemma insertTag_nonempty : ∀ (acc : List (Oid × List String)) (oid : Oid) (name : String),
    (∀ p ∈ acc, p.2 ≠ []) → ∀ p ∈ insertTag acc oid name, p.2 ≠ []
  | [], oid, name, _, p, hp => by
    simp only [insertTag, List.mem_singleton] at hp
    subst hp
    simp
  | (o, ts) :: rest, oid, name, h, p, hp => by
    simp only [insertTag] at hp
    split at hp
    · rcases List.mem_cons.mp hp with h1 | h1
      · subst h1
        simp
      · exact h p (List.mem_cons_of_mem _ h1)
    · rcases List.mem_cons.mp hp with h1 | h1
      · subst h1
        exact h (o, ts) (by simp)
      · exact insertTag_nonempty rest oid name
          (fun q hq => h q (List.mem_cons_of_mem _ hq)) p h1

/-- The tag_foreach fold preserves non-emptiness of all value lists. -/
lemma allTagsAux_nonempty : ∀ (refs : List TagRef) (acc m : List (Oid × List String)),
    (∀ p ∈ acc, p.2 ≠ []) → allTagsAux refs acc = .ok m → ∀ p ∈ m, p.2 ≠ []
  | [], acc, m, h, heq, p, hp => by
    unfold allTagsAux at heq
    injection heq with h2
    subst h2
    exact h p hp
  | r :: rest, acc, m, h, heq, p, hp => by
    unfold allTagsAux at heq
    split at heq
    · exact absurd heq (by simp)
    · rename_i name hname
      exact allTagsAux_nonempty rest _ m
        (insertTag_nonempty acc r.target name h) heq p hp

/-- C8: every value list in a successfully built tag index is non-empty:
a commit with zero tags is simply absent from the mapping. -/
theorem c8_tag_index_nonempty (repo : Repo) (m : List (Oid × List String))
    (h : all_tags repo = .ok m) : ∀ p ∈ m, p.2 ≠ [] :=
  allTagsAux_nonempty repo.tagRefs [] m (by simp) h

/-- C8 witness: the index of the tagged one-commit repository has the
single non-empty entry for commit 1. -/
theorem c8_tag_index_nonempty_witness :
    all_tags tagOnHeadRepo = .ok [(1, ["v1.0.0"])] ∧ (["v1.0.0"] : List String) ≠ [] :=
  ⟨by decide,
    c8_tag_index_nonempty tagOnHeadRepo [(1, ["v1.0.0"])] (by decide) (1, ["v1.0.0"]) (by simp)⟩

/-- The tag_foreach fold stops at the first malformed reference name and
returns its error, regardless of what follows it. -/
lemma allTagsAux_error : ∀ (pre : List TagRef) (bad : TagRef) (post : List TagRef)
    (acc : List (Oid × List String)) (e : GitError),
    (∀ r ∈ pre, (tagShortName r.name).isOk = true) →
    tagShortName bad.name = .error e →
    allTagsAux (pre ++ bad :: post) acc = .error e
  | [], bad, post, acc, e, _, hbad => by
    show allTagsAux (bad :: post) acc = .error e
    unfold allTagsAux
    rw [hbad]
  | r :: pre, bad, post, acc, e, hok, hbad => by
    show allTagsAux (r :: (pre ++ bad :: post)) acc = .error e
    unfold allTagsAux
    have hr := hok r (by simp)
    cases hts : tagShortName r.name with
    | error e2 =>
      rw [hts] at hr
      exact absurd hr (by simp [Except.isOk, Except.toBool])
    | ok name =>
      exact allTagsAux_error pre bad post (insertTag acc r.target name) e
        (fun q hq => hok q (by simp [hq])) hbad

/-- C9: a tag reference whose name is not valid text or does not carry the
refs/tags/ namespace makes all_tags return the corresponding malformed-name
error, with enumeration aborted at the offending reference: the result is
this error for every possible continuation of the reference list. -/
theorem c9_malformed_tag_aborts (repo : Repo) (pre : List TagRef) (bad : TagRef)
    (post : List TagRef) (e : GitError)
    (hsplit : repo.tagRefs = pre ++ bad :: post)
    (hok : ∀ r ∈ pre, (tagShortName r.name).isOk = true)
    (hbad : tagShortName bad.name = .error e) :
    all_tags repo = .error e := by
  unfold all_tags
  rw [hsplit]
  exact allTagsAux_error pre bad post [] e hok hbad

/-- C9 witness: the repository whose second tag reference has the invalid
byte 255 makes all_tags fail with the UTF-8 error, although a further
well-formed reference follows. -/
theorem c9_malformed_tag_aborts_witness :
    tagShortName ([255] : List Nat) = .error (.fromStr "Tag name is not valid UTF-8") ∧
    all_tags malformedTagRepo = .error (.fromStr "Tag name is not valid UTF-8") := by
  refine ⟨by decide, ?_⟩
  exact c9_malformed_tag_aborts malformedTagRepo [⟨refV100, 1⟩] ⟨[255], 2⟩ [⟨refSide, 3⟩]
    (.fromStr "Tag name is not valid UTF-8") (by decide) (by decide) (by decide)

/-- C10: when first-parent edges admit a strictly decreasing rank bounded
by the number of commits — the certificate that the commit graph walked
from head is acyclic — get_git_info always returns a result: the walk
terminates by finding a tagged commit or running out of parents. -/
theorem c10_walk_terminates (repo : Repo) (r : Nat → Nat)
    (hdec : rankDecreasingB repo r = true)
    (hbnd : rankBoundedB repo r = true) :
    (get_git_info repo).isSome = true := by
  unfold get_git_info
  split
  · rfl
  · rename_i c hc
    split
    · rfl
    · split
      · rfl
      · have hcm : c ∈ repo.commits := resolveHead_mem hc
        have hr : r c.id < repo.commits.length + 1 :=
          of_decide_eq_true (List.all_eq_true.mp hbnd c hcm)
        exact walkLoop_isSome hdec (repo.commits.length + 1) c 0 hcm hr

/-- C10 witness: the identity rank certifies the two-commit linear
repository, and the resolver terminates on it. -/
theorem c10_walk_terminates_witness :
    rankDecreasingB linearTagRepo (fun o => o) = true ∧
    rankBoundedB linearTagRepo (fun o => o) = true ∧
    (get_git_info linearTagRepo).isSome = true :=
  ⟨by decide, by decide,
    c10_walk_terminates linearTagRepo (fun o => o) (by decide) (by decide)⟩

end Git2Version
